import Mathlib

/-!
Verification of the PrimeVis prime generation / classification core.

The Python modules `prime_generator.py`, `prime_classifier.py` and the
grid/statistics part of `image_generator.py` are shallowly embedded below.
Python integers are embedded as `Int` (or `Nat` where the source guarantees
non-negativity), Python's `Set[int]` as `Finset Int`, Python lists of
booleans as their indexing function `Nat → Bool` (every read and write the
source performs is within bounds, so the indexing function captures the
list exactly), and the decimal string `str(n)` of a non-negative integer as
its digit list.
-/

namespace PrimeVis

/-! ## prime_generator.py -/

/-- The `while i * i <= n` trial-division loop of `is_prime`
(`prime_generator.py` lines 28-32): checks the divisor candidates `i` and
`i + 2`, stepping `i` by 6. -/
def trialDiv (n i : Nat) : Bool :=
  if i * i ≤ n then
    if n % i = 0 ∨ n % (i + 2) = 0 then false
    else trialDiv n (i + 6)
  else true
termination_by n + 1 - i
decreasing_by
  rcases Nat.eq_zero_or_pos i with h0 | h0
  · subst h0; omega
  · have : i ≤ i * i := Nat.le_mul_of_pos_left i h0
    omega

/-- `is_prime` (`prime_generator.py` lines 10-34). -/
def is_prime (n : Int) : Bool :=
  if n ≤ 1 then false
  else if n ≤ 3 then true
  else if n % 2 = 0 ∨ n % 3 = 0 then false
  else trialDiv n.toNat 5

/-- The single assignment `sieve[j] = False` (`prime_generator.py` line 59)
on the sieve list embedded as its indexing function. -/
def clearCell (s : Nat → Bool) (j : Nat) : Nat → Bool :=
  fun n => if n = j then false else s n

/-- The inner marking loop `for j in range(i*i, limit + 1, i): sieve[j] = False`
of `generate_primes` (`prime_generator.py` lines 58-59), with the running
index `j` explicit.  The `0 < i` conjunct encodes the positive step of
`range`; every call site has `i ≥ 2`. -/
def markMultiples (s : Nat → Bool) (i lim j : Nat) : Nat → Bool :=
  if _h : 0 < i ∧ j ≤ lim then
    markMultiples (clearCell s j) i lim (j + i)
  else s
termination_by lim + 1 - j
decreasing_by omega

/-- The outer loop `for i in range(2, int(math.sqrt(limit)) + 1)` of
`generate_primes` (`prime_generator.py` lines 56-59), with the loop
variable `i` explicit; `int(math.sqrt limit)` is the integer square root. -/
def sieveLoop (s : Nat → Bool) (lim i : Nat) : Nat → Bool :=
  if h : i ≤ Nat.sqrt lim then
    sieveLoop (if s i then markMultiples s i lim (i * i) else s) lim (i + 1)
  else s
termination_by Nat.sqrt lim + 1 - i
decreasing_by omega

/-- `generate_primes` (`prime_generator.py` lines 37-62): the Sieve of
Eratosthenes.  The boolean list `sieve` of length `limit + 1` is embedded as
its indexing function, initialised to `True` everywhere except indices 0
and 1. -/
def generate_primes (limit : Int) : List Nat :=
  if limit < 2 then []
  else
    let lim := limit.toNat
    let init : Nat → Bool := fun n => if n = 0 then false else if n = 1 then false else true
    let sieve := sieveLoop init lim 2
    (List.range (lim + 1)).filter (fun n => sieve n)

/-- `generate_primes_set` (`prime_generator.py` lines 65-75). -/
def generate_primes_set (limit : Int) : Finset Int :=
  ((generate_primes limit).map (fun n : Nat => (n : Int))).toFinset

/-! ## Correctness of `is_prime` (trial division) -/

/-- If the trial-division loop reports `false`, `n` has a proper divisor. -/
lemma trialDiv_false_sound (n : Nat) :
    ∀ i, 5 ≤ i → trialDiv n i = false → ∃ d, 2 ≤ d ∧ d < n ∧ d ∣ n := by
  refine trialDiv.induct n
    (fun i => 5 ≤ i → trialDiv n i = false → ∃ d, 2 ≤ d ∧ d < n ∧ d ∣ n) ?_ ?_ ?_
  · intro i hle hdvd h5 _
    have h5i : 5 * i ≤ i * i := Nat.mul_le_mul_right i h5
    rcases hdvd with hd | hd
    · exact ⟨i, by omega, by omega, Nat.dvd_of_mod_eq_zero hd⟩
    · exact ⟨i + 2, by omega, by omega, Nat.dvd_of_mod_eq_zero hd⟩
  · intro i hle hdvd ih h5 hfalse
    rw [trialDiv, if_pos hle, if_neg hdvd] at hfalse
    exact ih (by omega) hfalse
  · intro i hgt _ hfalse
    rw [trialDiv, if_neg hgt] at hfalse
    cases hfalse

/-- If `n` has a divisor `d ≡ ±1 (mod 6)` at or beyond the current loop
index whose corresponding check still lies inside the `i * i ≤ n` window,
the loop reports `false`.  A divisor `d ≡ 5 (mod 6)` is checked at
iteration `i = d`; a divisor `d ≡ 1 (mod 6)` is checked as the `i + 2`
candidate of iteration `i = d - 2`. -/
lemma trialDiv_false_complete (n : Nat) :
    ∀ i, i % 6 = 5 → ∀ d, d ∣ n →
      ((d % 6 = 5 ∧ i ≤ d ∧ d * d ≤ n) ∨
       (d % 6 = 1 ∧ i ≤ d ∧ (d - 2) * (d - 2) ≤ n)) →
      trialDiv n i = false := by
  refine trialDiv.induct n
    (fun i => i % 6 = 5 → ∀ d, d ∣ n →
      ((d % 6 = 5 ∧ i ≤ d ∧ d * d ≤ n) ∨
       (d % 6 = 1 ∧ i ≤ d ∧ (d - 2) * (d - 2) ≤ n)) →
      trialDiv n i = false) ?_ ?_ ?_
  · intro i hle hdvd _ d hd hcase
    rw [trialDiv, if_pos hle, if_pos hdvd]
  · intro i hle hdvd ih hi6 d hd hcase
    rw [trialDiv, if_pos hle, if_neg hdvd]
    push_neg at hdvd
    have hdi : d ≠ i := by
      rintro rfl
      exact hdvd.1 (Nat.mod_eq_zero_of_dvd hd)
    have hdi2 : d ≠ i + 2 := by
      rintro rfl
      exact hdvd.2 (Nat.mod_eq_zero_of_dvd hd)
    apply ih (by omega) d hd
    rcases hcase with ⟨h6, hid, hsq⟩ | ⟨h6, hid, hsq⟩
    · exact Or.inl ⟨h6, by omega, hsq⟩
    · exact Or.inr ⟨h6, by omega, hsq⟩
  · intro i hgt hi6 d hd hcase
    exfalso
    apply hgt
    rcases hcase with ⟨h6, hid, hsq⟩ | ⟨h6, hid, hsq⟩
    · calc i * i ≤ d * d := Nat.mul_le_mul hid hid
        _ ≤ n := hsq
    · have hid2 : i ≤ d - 2 := by omega
      calc i * i ≤ (d - 2) * (d - 2) := Nat.mul_le_mul hid2 hid2
        _ ≤ n := hsq

/-- For a composite `n ≥ 2`, the least prime factor is at most `√n`. -/
lemma minFac_sq_le (n : Nat) (h2 : 2 ≤ n) (hnp : ¬ Nat.Prime n) :
    n.minFac * n.minFac ≤ n := by
  have hd : n.minFac ∣ n := Nat.minFac_dvd n
  obtain ⟨k, hk⟩ := hd
  have hk0 : k ≠ 0 := by rintro rfl; omega
  have hk1 : k ≠ 1 := by
    rintro rfl
    rw [Nat.mul_one] at hk
    exact hnp (hk ▸ Nat.minFac_prime (by omega))
  have hkd : k ∣ n := Dvd.intro_left _ hk.symm
  have : n.minFac ≤ k := Nat.minFac_le_of_dvd (by omega) hkd
  calc n.minFac * n.minFac ≤ n.minFac * k := Nat.mul_le_mul_left _ this
    _ = n := hk.symm

/-- The trial-division loop started at 5 decides primality of any `n ≥ 5`
that survived the divisibility-by-2-and-3 checks. -/
lemma trialDiv_eq_true_iff (n : Nat) (h5 : 5 ≤ n)
    (h2 : n % 2 ≠ 0) (h3 : n % 3 ≠ 0) :
    trialDiv n 5 = true ↔ Nat.Prime n := by
  constructor
  · intro htrue
    by_contra hnp
    suffices hfalse : trialDiv n 5 = false by rw [htrue] at hfalse; cases hfalse
    set p := n.minFac with hp
    have hpp : Nat.Prime p := Nat.minFac_prime (by omega)
    have hpd : p ∣ n := Nat.minFac_dvd n
    have hsq : p * p ≤ n := minFac_sq_le n (by omega) hnp
    have hp2 : p ≠ 2 := by
      rintro h
      exact h2 (Nat.mod_eq_zero_of_dvd (h ▸ hpd))
    have hp3 : p ≠ 3 := by
      rintro h
      exact h3 (Nat.mod_eq_zero_of_dvd (h ▸ hpd))
    have hp5 : 5 ≤ p := by
      rcases Nat.lt_or_ge p 5 with h | h
      · interval_cases p <;> first
          | (exfalso; exact Nat.not_prime_zero hpp)
          | (exfalso; exact Nat.not_prime_one hpp)
          | omega
      · exact h
    have hpmod : p % 6 = 5 ∨ p % 6 = 1 := by
      have h2d : ¬ 2 ∣ p := by
        intro h
        exact hp2 ((Nat.prime_dvd_prime_iff_eq Nat.prime_two hpp).mp h).symm
      have h3d : ¬ 3 ∣ p := by
        intro h
        exact hp3 ((Nat.prime_dvd_prime_iff_eq Nat.prime_three hpp).mp h).symm
      omega
    apply trialDiv_false_complete n 5 (by omega) p hpd
    rcases hpmod with h | h
    · exact Or.inl ⟨h, hp5, hsq⟩
    · refine Or.inr ⟨h, hp5, ?_⟩
      calc (p - 2) * (p - 2) ≤ p * p := Nat.mul_le_mul (by omega) (by omega)
        _ ≤ n := hsq
  · intro hprime
    by_contra htrue
    have hfalse : trialDiv n 5 = false := by
      cases h : trialDiv n 5
      · rfl
      · exact absurd h htrue
    obtain ⟨d, hd2, hdn, hdvd⟩ := trialDiv_false_sound n 5 (by omega) hfalse
    rcases (Nat.Prime.eq_one_or_self_of_dvd hprime d hdvd) with h | h <;> omega

/-- `is_prime` decides primality: it returns `true` exactly on the integers
`n ≥ 2` whose absolute value (`toNat`) is a prime number. -/
theorem is_prime_iff (n : Int) :
    is_prime n = true ↔ 2 ≤ n ∧ Nat.Prime n.toNat := by
  unfold is_prime
  split_ifs with h1 h3 h23
  · simp only [Bool.false_eq_true, false_iff]
    rintro ⟨h, -⟩; omega
  · simp only [true_iff]
    have : n.toNat = 2 ∨ n.toNat = 3 := by omega
    rcases this with h | h <;> rw [h]
    · exact ⟨by omega, Nat.prime_two⟩
    · exact ⟨by omega, Nat.prime_three⟩
  · simp only [Bool.false_eq_true, false_iff]
    rintro ⟨-, hp⟩
    have hn4 : 4 ≤ n.toNat := by omega
    rcases h23 with h | h
    · have : 2 ∣ n.toNat := by omega
      rcases (Nat.Prime.eq_one_or_self_of_dvd hp 2 this) with h' | h' <;> omega
    · have : 3 ∣ n.toNat := by omega
      rcases (Nat.Prime.eq_one_or_self_of_dvd hp 3 this) with h' | h' <;> omega
  · push_neg at h23
    have h5 : 5 ≤ n.toNat := by omega
    rw [trialDiv_eq_true_iff n.toNat h5 (by omega) (by omega)]
    have : 2 ≤ n := by omega
    tauto

/-- `is_prime` on a natural-number literal decides `Nat.Prime`. -/
lemma is_prime_coe (k : Nat) : is_prime (k : Int) = true ↔ Nat.Prime k := by
  rw [is_prime_iff]
  constructor
  · rintro ⟨-, hp⟩; simpa using hp
  · intro hp
    have : 2 ≤ k := hp.two_le
    constructor
    · omega
    · simpa using hp

/-- A boolean equals `decide p` as soon as it is `true` exactly when `p`
holds. -/
lemma bool_eq_decide (b : Bool) (p : Prop) [Decidable p] (h : b = true ↔ p) :
    b = decide p := by
  by_cases hp : p
  · simp [hp, h.mpr hp]
  · cases hb : b
    · simp [hp]
    · exact absurd (h.mp hb) hp

/-! ## Correctness of `generate_primes` (the sieve) -/

/-- Effect of the inner marking loop on an arbitrary cell `n`: it clears
exactly the cells `j, j + i, j + 2i, …` up to `lim` and leaves the rest
unchanged. -/
lemma markMultiples_apply :
    ∀ (s : Nat → Bool) (i lim j : Nat), 0 < i → ∀ n,
      markMultiples s i lim j n =
        if j ≤ n ∧ n ≤ lim ∧ i ∣ (n - j) then false else s n := by
  refine markMultiples.induct
    (fun s i lim j => 0 < i → ∀ n,
      markMultiples s i lim j n =
        if j ≤ n ∧ n ≤ lim ∧ i ∣ (n - j) then false else s n) ?_ ?_
  · intro s i lim j h ih hi n
    rw [markMultiples, dif_pos h, ih hi n]
    by_cases hn : n = j
    · subst hn
      have hc1 : ¬ (n + i ≤ n ∧ n ≤ lim ∧ i ∣ (n - (n + i))) := by
        rintro ⟨h1, -, -⟩; omega
      have hc2 : n ≤ n ∧ n ≤ lim ∧ i ∣ (n - n) := ⟨le_refl n, h.2, by simp⟩
      rw [if_neg hc1, if_pos hc2]
      simp [clearCell]
    · have hcond : (j + i ≤ n ∧ n ≤ lim ∧ i ∣ (n - (j + i))) ↔
          (j ≤ n ∧ n ≤ lim ∧ i ∣ (n - j)) := by
        constructor
        · rintro ⟨h1, h2, t, ht⟩
          refine ⟨by omega, h2, t + 1, ?_⟩
          have hit : i * (t + 1) = i * t + i := by ring
          omega
        · rintro ⟨h1, h2, t, ht⟩
          rcases t with - | t'
          · simp only [Nat.mul_zero] at ht
            omega
          · have hit : i * (t' + 1) = i * t' + i := by ring
            refine ⟨by omega, h2, t', by omega⟩
      have hs' : clearCell s j n = s n := by simp [clearCell, hn]
      simp only [hcond, hs']
  · intro s i lim j h hi n
    rw [markMultiples, dif_neg h]
    have hc : ¬ (j ≤ n ∧ n ≤ lim ∧ i ∣ (n - j)) := by
      rintro ⟨h1, h2, -⟩
      omega
    rw [if_neg hc]

/-- Effect of the inner loop when started at `j = i * i` as `generate_primes`
does: it clears exactly the multiples of `i` in `[i * i, lim]`. -/
lemma markMultiples_sq_apply (s : Nat → Bool) (i lim : Nat) (hi : 0 < i)
    (n : Nat) :
    markMultiples s i lim (i * i) n =
      if i * i ≤ n ∧ n ≤ lim ∧ i ∣ n then false else s n := by
  rw [markMultiples_apply s i lim (i * i) hi n]
  have hcond : (i * i ≤ n ∧ n ≤ lim ∧ i ∣ (n - i * i)) ↔
      (i * i ≤ n ∧ n ≤ lim ∧ i ∣ n) := by
    constructor
    · rintro ⟨h1, h2, hd⟩
      refine ⟨h1, h2, ?_⟩
      have : i ∣ (n - i * i) + i * i := Nat.dvd_add hd (Dvd.intro i rfl)
      rwa [Nat.sub_add_cancel h1] at this
    · rintro ⟨h1, h2, hd⟩
      exact ⟨h1, h2, Nat.dvd_sub' hd (Dvd.intro i rfl)⟩
  simp only [hcond]

/-- Invariant of the outer sieve loop before processing index `i`: a cell
`n ≤ lim` is still `true` iff `n ≥ 2` and no prime `p < i` with `p² ≤ n`
divides `n`. -/
def sieveInv (lim i : Nat) (s : Nat → Bool) : Prop :=
  ∀ n, n ≤ lim →
    (s n = true ↔ 2 ≤ n ∧ ∀ p, Nat.Prime p → p < i → p ∣ n → ¬ p * p ≤ n)

/-- The freshly initialised sieve (all `true` except cells 0 and 1)
satisfies the invariant at `i = 2`. -/
lemma sieveInv_init (lim : Nat) :
    sieveInv lim 2 (fun n => if n = 0 then false else if n = 1 then false else true) := by
  intro n hn
  constructor
  · intro ht
    simp only at ht
    split_ifs at ht with h0 h1
    refine ⟨by omega, fun p hp hlt _ => ?_⟩
    have := hp.two_le
    omega
  · rintro ⟨h2, -⟩
    simp only
    rw [if_neg (by omega), if_neg (by omega)]

/-- Processing one index `i` of the outer loop preserves the invariant. -/
lemma sieveInv_step (lim i : Nat) (s : Nat → Bool) (h2 : 2 ≤ i)
    (hle : i ≤ Nat.sqrt lim) (hInv : sieveInv lim i s) :
    sieveInv lim (i + 1) (if s i = true then markMultiples s i lim (i * i) else s) := by
  have hilim : i ≤ lim := le_trans hle (Nat.sqrt_le_self lim)
  have hpr : s i = true ↔ Nat.Prime i := by
    rw [hInv i hilim]
    constructor
    · rintro ⟨-, hall⟩
      by_contra hnp
      have hpp : Nat.Prime i.minFac := Nat.minFac_prime (by omega)
      have hpd : i.minFac ∣ i := Nat.minFac_dvd i
      have hsq : i.minFac * i.minFac ≤ i := minFac_sq_le i h2 hnp
      have hlt : i.minFac < i := by
        have hle' : i.minFac ≤ i := Nat.minFac_le (by omega)
        rcases Nat.lt_or_ge i.minFac i with h | h
        · exact h
        · have heq : i.minFac = i := by omega
          exact absurd (heq ▸ hpp) hnp
      exact hall i.minFac hpp hlt hpd hsq
    · intro hp
      refine ⟨h2, fun p hp' hlt hdvd => ?_⟩
      rcases (Nat.Prime.eq_one_or_self_of_dvd hp p hdvd) with h | h
      · intro _
        exact hp'.ne_one h
      · intro _
        exact absurd (h ▸ hlt) (lt_irrefl i)
  by_cases hsi : s i = true
  · rw [if_pos hsi]
    have hip : Nat.Prime i := hpr.mp hsi
    intro n hn
    rw [markMultiples_sq_apply s i lim (by omega) n]
    split_ifs with hcond
    · simp only [Bool.false_eq_true, false_iff]
      rintro ⟨hn2, hall⟩
      exact hall i hip (by omega) hcond.2.2 hcond.1
    · rw [hInv n hn]
      constructor
      · rintro ⟨hn2, hall⟩
        refine ⟨hn2, fun p hp hlt hdvd hsq => ?_⟩
        rcases Nat.lt_or_ge p i with h | h
        · exact hall p hp h hdvd hsq
        · have heq : p = i := by omega
          subst heq
          exact hcond ⟨hsq, hn, hdvd⟩
      · rintro ⟨hn2, hall⟩
        exact ⟨hn2, fun p hp hlt hdvd => hall p hp (by omega) hdvd⟩
  · rw [if_neg hsi]
    have hnp : ¬ Nat.Prime i := fun h => hsi (hpr.mpr h)
    intro n hn
    rw [hInv n hn]
    constructor
    · rintro ⟨hn2, hall⟩
      refine ⟨hn2, fun p hp hlt hdvd => ?_⟩
      rcases Nat.lt_or_ge p i with h | h
      · exact hall p hp h hdvd
      · have heq : p = i := by omega
        exact absurd (heq ▸ hp) hnp
    · rintro ⟨hn2, hall⟩
      exact ⟨hn2, fun p hp hlt hdvd => hall p hp (by omega) hdvd⟩

/-- Once the loop index has passed `√lim`, the invariant says exactly that
the surviving cells are the primes. -/
lemma sieveInv_final (lim i : Nat) (s : Nat → Bool) (hgt : Nat.sqrt lim < i)
    (hInv : sieveInv lim i s) :
    ∀ n, n ≤ lim → (s n = true ↔ Nat.Prime n) := by
  intro n hn
  rw [hInv n hn]
  constructor
  · rintro ⟨hn2, hall⟩
    by_contra hnp
    have hpp : Nat.Prime n.minFac := Nat.minFac_prime (by omega)
    have hsq : n.minFac * n.minFac ≤ n := minFac_sq_le n hn2 hnp
    have hplt : n.minFac < i := by
      have h1 : n.minFac ≤ Nat.sqrt n := Nat.le_sqrt.mpr hsq
      have h2 : Nat.sqrt n ≤ Nat.sqrt lim := Nat.sqrt_le_sqrt hn
      omega
    exact hall n.minFac hpp hplt (Nat.minFac_dvd n) hsq
  · intro hp
    refine ⟨hp.two_le, fun p hpp hlt hdvd hsq => ?_⟩
    rcases (Nat.Prime.eq_one_or_self_of_dvd hp p hdvd) with h | h
    · exact hpp.ne_one h
    · subst h
      have h2p : 2 * p ≤ p * p := Nat.mul_le_mul_right p hpp.two_le
      have := hp.two_le
      omega

/-- Full run of the outer loop: starting from any state satisfying the
invariant, the final sieve marks exactly the primes up to `lim`. -/
lemma sieveLoop_primes :
    ∀ (s : Nat → Bool) (lim i : Nat), 2 ≤ i → sieveInv lim i s →
      ∀ n, n ≤ lim → (sieveLoop s lim i n = true ↔ Nat.Prime n) := by
  refine sieveLoop.induct
    (fun s lim i => 2 ≤ i → sieveInv lim i s →
      ∀ n, n ≤ lim → (sieveLoop s lim i n = true ↔ Nat.Prime n)) ?_ ?_
  · intro s lim i hle ih h2 hInv n hn
    rw [sieveLoop, dif_pos hle]
    exact ih (by omega) (sieveInv_step lim i s h2 hle hInv) n hn
  · intro s lim i hgt h2 hInv n hn
    rw [sieveLoop, dif_neg hgt]
    exact sieveInv_final lim i s (by omega) hInv n hn

/-- Membership in `generate_primes limit` is exactly primality together
with being at most `limit` (for every integer `limit`, including the
negative ones, where the result is empty). -/
theorem mem_generate_primes (limit : Int) (n : Nat) :
    n ∈ generate_primes limit ↔ Nat.Prime n ∧ (n : Int) ≤ limit := by
  simp only [generate_primes]
  split_ifs with hlt
  · simp only [List.not_mem_nil, false_iff]
    rintro ⟨hp, hle⟩
    have := hp.two_le
    omega
  · push_neg at hlt
    rw [List.mem_filter, List.mem_range]
    have hinv := sieveLoop_primes _ limit.toNat 2 (by omega) (sieveInv_init limit.toNat)
    constructor
    · rintro ⟨hmem, hs⟩
      have hn : n ≤ limit.toNat := by omega
      exact ⟨(hinv n hn).mp hs, by omega⟩
    · rintro ⟨hp, hle⟩
      have hn : n ≤ limit.toNat := by omega
      exact ⟨by omega, (hinv n hn).mpr hp⟩

/-- `generate_primes` agrees with filtering the range `[0, limit]` by
primality; this turns concrete sieve runs into kernel-computable lists. -/
lemma generate_primes_eq_filter (limit : Int) :
    generate_primes limit =
      (List.range (limit.toNat + 1)).filter (fun n => decide (Nat.Prime n)) := by
  by_cases hlt : limit < 2
  · rw [generate_primes, if_pos hlt]
    symm
    rw [List.filter_eq_nil_iff]
    intro a ha
    rw [List.mem_range] at ha
    have : a = 0 ∨ a = 1 := by omega
    simp only [decide_eq_true_eq]
    rcases this with h | h <;> subst h
    · exact Nat.not_prime_zero
    · exact Nat.not_prime_one
  · push_neg at hlt
    simp only [generate_primes, if_neg (by omega : ¬ limit < 2)]
    apply List.filter_congr
    intro x hx
    rw [List.mem_range] at hx
    have hinv := sieveLoop_primes _ limit.toNat 2 (by omega) (sieveInv_init limit.toNat)
    exact bool_eq_decide _ _ (hinv x (by omega))

/-- Membership in `generate_primes_set`. -/
lemma mem_generate_primes_set (limit p : Int) :
    p ∈ generate_primes_set limit ↔ 0 ≤ p ∧ Nat.Prime p.toNat ∧ p ≤ limit := by
  simp only [generate_primes_set, List.mem_toFinset, List.mem_map,
    mem_generate_primes]
  constructor
  · rintro ⟨n, ⟨hp, hle⟩, rfl⟩
    refine ⟨Int.ofNat_nonneg n, ?_, hle⟩
    simpa using hp
  · rintro ⟨h0, hp, hle⟩
    exact ⟨p.toNat, ⟨hp, by omega⟩, by omega⟩

/-! ## prime_classifier.py

The classifier functions take the Python `Set[int]` argument as a
`Finset Int`.  Functions that guard on `is_prime n` (hence `n ≥ 2`) pass
`n.toNat` to the digit- and arithmetic-level helpers, which operate on
natural numbers exactly as the source operates on the (then non-negative)
Python int. -/

/-- `is_twin_prime` (`prime_classifier.py` lines 11-22). -/
def is_twin_prime (n : Int) (primes_set : Finset Int) : Bool :=
  decide (n ∈ primes_set) &&
    (decide ((n - 2) ∈ primes_set) || decide ((n + 2) ∈ primes_set))

/-- `is_mersenne_prime` (`prime_classifier.py` lines 25-46).  The
power-of-two test `n_plus_1 & (n_plus_1 - 1) != 0` is the bitwise `land`;
under that guard `n + 1` is an exact power of two, so the float
`int(math.log2(n + 1))` is the exact binary logarithm `Nat.log2`. -/
def is_mersenne_prime (n : Int) : Bool :=
  if ¬ is_prime n then false
  else
    let n_plus_1 := n.toNat + 1
    if Nat.land n_plus_1 (n_plus_1 - 1) ≠ 0 then false
    else is_prime ((Nat.log2 n_plus_1 : Nat) : Int)

/-- `is_safe_prime` (`prime_classifier.py` lines 49-59).  `(n - 1) // 2` is
Python floor division; under the `n > 2` guard the operand is positive, so
it agrees with `Int` division. -/
def is_safe_prime (n : Int) : Bool :=
  decide (n > 2) && is_prime n && is_prime ((n - 1) / 2)

/-- `is_sophie_germain_prime` (`prime_classifier.py` lines 62-72). -/
def is_sophie_germain_prime (n : Int) : Bool :=
  is_prime n && is_prime (2 * n + 1)

/-- `is_palindromic_prime` (`prime_classifier.py` lines 75-85):
`str(n) == str(n)[::-1]` on the digit list of the (non-negative, since
prime) integer `n`. -/
def is_palindromic_prime (n : Int) : Bool :=
  is_prime n && decide (Nat.digits 10 n.toNat = (Nat.digits 10 n.toNat).reverse)

/-- The rotated value `int(str_n[i:] + str_n[:i])` of `is_circular_prime`
(`prime_classifier.py` line 108), acting on the big-endian digit list
`ds` of `n`; re-reading the rotated string drops leading zeros exactly as
`int(...)` does. -/
def rotationValue (ds : List Nat) (i : Nat) : Nat :=
  Nat.ofDigits 10 ((ds.drop i ++ ds.take i).reverse)

/-- `is_circular_prime` (`prime_classifier.py` lines 88-112). -/
def is_circular_prime (n : Int) : Bool :=
  if ¬ is_prime n then false
  else
    let str_n := (Nat.digits 10 n.toNat).reverse
    if str_n.length = 1 then true
    else (List.range (str_n.length - 1)).all
      (fun k => is_prime ((rotationValue str_n (k + 1) : Nat) : Int))

/-- The `while factorial < n + 1 and i < 20` search loop of
`is_factorial_prime` (`prime_classifier.py` lines 129-137). -/
def factorialLoop (n factorial i : Nat) : Bool :=
  if _h : factorial < n + 1 ∧ i < 20 then
    let f := factorial * i
    if n = f - 1 ∨ n = f + 1 then true
    else factorialLoop n f (i + 1)
  else false
termination_by 20 - i
decreasing_by omega

/-- `is_factorial_prime` (`prime_classifier.py` lines 115-139). -/
def is_factorial_prime (n : Int) : Bool :=
  if ¬ is_prime n then false
  else factorialLoop n.toNat 1 1

/-- The helper `is_perfect_square` of `is_fibonacci_prime`
(`prime_classifier.py` lines 156-158): `int(math.sqrt(x)) ** 2 == x`. -/
def is_perfect_square (x : Nat) : Bool :=
  Nat.sqrt x * Nat.sqrt x == x

/-- `is_fibonacci_prime` (`prime_classifier.py` lines 142-160). -/
def is_fibonacci_prime (n : Int) : Bool :=
  if ¬ is_prime n then false
  else
    let m := n.toNat
    is_perfect_square (5 * m * m + 4) || is_perfect_square (5 * m * m - 4)

/-- `is_sexy_prime` (`prime_classifier.py` lines 163-174). -/
def is_sexy_prime (n : Int) (primes_set : Finset Int) : Bool :=
  is_prime n && (decide ((n + 6) ∈ primes_set) || decide ((n - 6) ∈ primes_set))

/-- `is_cuban_prime` (`prime_classifier.py` lines 177-201): solves
`3m² + 3m + 1 = n` by the quadratic formula.  `math.sqrt(discriminant)`
passes the `is_integer` check exactly when the discriminant is a perfect
square, and the float checks `m.is_integer()` / `m >= 0` on
`m = (-3 + sqrt) / 6` are a divisibility and a sign check. -/
def is_cuban_prime (n : Int) : Bool :=
  if ¬ is_prime n then false
  else
    let discriminant := (9 + 12 * (n - 1)).toNat
    let s := Nat.sqrt discriminant
    if s * s ≠ discriminant then false
    else decide ((-3 + (s : Int)) % 6 = 0) && decide (0 ≤ (-3 + (s : Int)) / 6)

/-- `sum(int(digit) ** 2 for digit in str(n))` (`prime_classifier.py`
line 217) for the non-negative integer `n`. -/
def sumSqDigits (n : Nat) : Nat :=
  ((Nat.digits 10 n).map (fun d => d ^ 2)).sum

lemma sumSqDigits_zero : sumSqDigits 0 = 0 := by simp [sumSqDigits]

/-- Peeling off the last decimal digit. -/
lemma sumSqDigits_step (n : Nat) :
    sumSqDigits n = (n % 10) ^ 2 + sumSqDigits (n / 10) := by
  rcases Nat.eq_zero_or_pos n with h | h
  · subst h; simp [sumSqDigits]
  · unfold sumSqDigits
    rw [Nat.digits_def' (by norm_num : (1:ℕ) < 10) h]
    simp

/-- The digit-square sum strictly decreases on inputs with at least three
digits. -/
lemma sumSqDigits_lt : ∀ n, 100 ≤ n → sumSqDigits n < n := by
  intro n
  induction n using Nat.strong_induction_on with
  | _ n ih =>
    intro h
    by_cases h999 : n ≤ 999
    · have hx : n / 10 / 10 = n / 100 := by omega
      have e : sumSqDigits n =
          (n % 10) ^ 2 + ((n / 10) % 10) ^ 2 + (n / 100) ^ 2 := by
        rw [sumSqDigits_step n, sumSqDigits_step (n / 10), hx,
          sumSqDigits_step (n / 100)]
        have h100 : n / 100 % 10 = n / 100 := Nat.mod_eq_of_lt (by omega)
        have h1000 : n / 100 / 10 = 0 := by omega
        rw [h100, h1000, sumSqDigits_zero]
        ring
      have hd1 : 10 * (n / 10) + n % 10 = n := Nat.div_add_mod n 10
      have hd2 : 10 * (n / 100) + (n / 10) % 10 = n / 10 := by
        rw [← hx]
        exact Nat.div_add_mod (n / 10) 10
      have hA : (n % 10) ^ 2 ≤ 9 * (n % 10) := by
        rw [pow_two]
        exact Nat.mul_le_mul_right _ (by omega)
      have hB : ((n / 10) % 10) ^ 2 ≤ 9 * ((n / 10) % 10) := by
        rw [pow_two]
        exact Nat.mul_le_mul_right _ (by omega)
      have hC : (n / 100) ^ 2 ≤ 9 * (n / 100) := by
        rw [pow_two]
        exact Nat.mul_le_mul_right _ (by omega)
      omega
    · rw [sumSqDigits_step n]
      have ihh := ih (n / 10) (by omega) (by omega)
      have hA : (n % 10) ^ 2 ≤ 81 := by
        rw [pow_two]
        calc (n % 10) * (n % 10) ≤ 9 * 9 := Nat.mul_le_mul (by omega) (by omega)
          _ = 81 := rfl
      omega

/-- Inputs at most 162 have digit-square sum at most 162, so the happy
iteration is trapped in `[0, 162]` once it enters it. -/
lemma sumSqDigits_le_162 (n : Nat) (h : n ≤ 162) : sumSqDigits n ≤ 162 := by
  rcases Nat.lt_or_ge n 100 with h100 | h100
  · have e : sumSqDigits n = (n % 10) ^ 2 + (n / 10) ^ 2 := by
      rw [sumSqDigits_step n, sumSqDigits_step (n / 10)]
      have h1 : n / 10 % 10 = n / 10 := Nat.mod_eq_of_lt (by omega)
      have h2 : n / 10 / 10 = 0 := by omega
      rw [h1, h2, sumSqDigits_zero]
      ring
    have hA : (n % 10) ^ 2 ≤ 81 := by
      rw [pow_two]
      calc (n % 10) * (n % 10) ≤ 9 * 9 := Nat.mul_le_mul (by omega) (by omega)
        _ = 81 := rfl
    have hB : (n / 10) ^ 2 ≤ 81 := by
      rw [pow_two]
      calc (n / 10) * (n / 10) ≤ 9 * 9 :=
        Nat.mul_le_mul (by omega) (by omega)
        _ = 81 := rfl
    omega
  · have := sumSqDigits_lt n h100
    omega

/-- Number of values in `[0, 162]` not yet recorded in the visited set;
first component of the termination measure of the happy-number loop. -/
def happyMeasure (seen : List Nat) : Nat :=
  ((Finset.range 163).filter (fun k => k ∉ seen)).card

lemma happyMeasure_cons_le (seen : List Nat) (n : Nat) :
    happyMeasure (n :: seen) ≤ happyMeasure seen := by
  apply Finset.card_le_card
  intro k hk
  simp only [Finset.mem_filter, Finset.mem_range, List.mem_cons] at *
  tauto

lemma happyMeasure_cons_lt (seen : List Nat) (n : Nat) (hn : n < 163)
    (hns : n ∉ seen) : happyMeasure (n :: seen) < happyMeasure seen := by
  apply Finset.card_lt_card
  rw [Finset.ssubset_iff_of_subset]
  · refine ⟨n, ?_, ?_⟩
    · simp only [Finset.mem_filter, Finset.mem_range]
      exact ⟨hn, hns⟩
    · simp only [Finset.mem_filter, Finset.mem_range, List.mem_cons]
      tauto
  · intro k hk
    simp only [Finset.mem_filter, Finset.mem_range, List.mem_cons] at *
    tauto

/-- The `while n != 1 and n not in seen` loop of `is_happy_number`
(`prime_classifier.py` lines 214-218), with the visited set `seen`
explicit.  Termination is exactly the cycle-detection argument: each pass
inserts the current value into `seen`, values `≤ 162` stay `≤ 162`
(shrinking the finite pool of unvisited small values), and values `≥ 163`
strictly decrease. -/
def happyLoop (seen : List Nat) (n : Nat) : Bool :=
  if _h : n ≠ 1 ∧ n ∉ seen then happyLoop (n :: seen) (sumSqDigits n)
  else n == 1
termination_by (happyMeasure seen, n)
decreasing_by
  rcases Nat.lt_or_ge n 163 with hlt | hge
  · exact Prod.Lex.left _ _ (happyMeasure_cons_lt seen n hlt _h.2)
  · have hle := happyMeasure_cons_le seen n
    rcases Nat.lt_or_eq_of_le hle with h | h
    · exact Prod.Lex.left _ _ h
    · rw [h]
      exact Prod.Lex.right _ (sumSqDigits_lt n (by omega))

/-- `is_happy_number` (`prime_classifier.py` lines 204-218): the loop
starts with an empty visited set and reports whether it stopped at 1. -/
def is_happy_number (n : Nat) : Bool := happyLoop [] n

/-- `is_happy_prime` (`prime_classifier.py` lines 221-231).  Python's
short-circuit `and` evaluates the happy check only when `is_prime n`
already holds, hence only on non-negative `n`; `toNat` is exact there. -/
def is_happy_prime (n : Int) : Bool :=
  is_prime n && is_happy_number n.toNat

/-- The `for i in range(2, int(math.sqrt(n_plus_2)) + 1)` factor-search
loop of `is_chen_prime` (`prime_classifier.py` lines 257-262): it returns
on the first divisor found. -/
def chenLoop (m i : Nat) : Bool :=
  if _h : i ≤ Nat.sqrt m then
    if m % i = 0 then is_prime (i : Int) && is_prime ((m / i : Nat) : Int)
    else chenLoop m (i + 1)
  else false
termination_by Nat.sqrt m + 1 - i
decreasing_by omega

/-- `is_chen_prime` (`prime_classifier.py` lines 234-262). -/
def is_chen_prime (n : Int) : Bool :=
  if ¬ is_prime n then false
  else if is_prime (n + 2) then true
  else if n + 2 < 4 then false
  else chenLoop (n + 2).toNat 2

/-- `is_wieferich_prime` (`prime_classifier.py` lines 265-280): membership
in the hard-coded set `{1093, 3511}`. -/
def is_wieferich_prime (n : Int) : Bool :=
  if ¬ is_prime n then false
  else decide (n = 1093 ∨ n = 3511)

/-- `is_isolated_prime` (`prime_classifier.py` lines 283-294). -/
def is_isolated_prime (n : Int) (primes_set : Finset Int) : Bool :=
  is_prime n && decide ((n - 2) ∉ primes_set) && decide ((n + 2) ∉ primes_set)

/-- `classify_prime` (`prime_classifier.py` lines 297-339): the cascading
`elif` chain, in source order. -/
def classify_prime (n : Int) (primes_set : Finset Int) : String :=
  if is_mersenne_prime n then "mersenne_prime"
  else if is_factorial_prime n then "factorial_prime"
  else if is_wieferich_prime n then "wieferich_prime"
  else if is_fibonacci_prime n then "fibonacci_prime"
  else if is_twin_prime n primes_set then "twin_prime"
  else if is_sexy_prime n primes_set then "sexy_prime"
  else if is_isolated_prime n primes_set then "isolated_prime"
  else if is_safe_prime n then "safe_prime"
  else if is_sophie_germain_prime n then "sophie_germain_prime"
  else if is_chen_prime n then "chen_prime"
  else if is_palindromic_prime n then "palindromic_prime"
  else if is_circular_prime n then "circular_prime"
  else if is_cuban_prime n then "cuban_prime"
  else if is_happy_prime n then "happy_prime"
  else "regular_prime"

/-- The family predicates of `classify_prime` paired with their labels, in
the exact source order of the `elif` chain. -/
def classifierTable (n : Int) (primes_set : Finset Int) : List (Bool × String) :=
  [(is_mersenne_prime n, "mersenne_prime"),
   (is_factorial_prime n, "factorial_prime"),
   (is_wieferich_prime n, "wieferich_prime"),
   (is_fibonacci_prime n, "fibonacci_prime"),
   (is_twin_prime n primes_set, "twin_prime"),
   (is_sexy_prime n primes_set, "sexy_prime"),
   (is_isolated_prime n primes_set, "isolated_prime"),
   (is_safe_prime n, "safe_prime"),
   (is_sophie_germain_prime n, "sophie_germain_prime"),
   (is_chen_prime n, "chen_prime"),
   (is_palindromic_prime n, "palindromic_prime"),
   (is_circular_prime n, "circular_prime"),
   (is_cuban_prime n, "cuban_prime"),
   (is_happy_prime n, "happy_prime")]

/-- The label of the first predicate that evaluated `true`, with fallback
`"regular_prime"`. -/
def firstTrueLabel : List (Bool × String) → String
  | [] => "regular_prime"
  | (b, label) :: rest => if b then label else firstTrueLabel rest

/-! ## image_generator.py (grid and statistics) -/

/-- `calculate_dimensions` (`image_generator.py` lines 15-38). -/
def calculate_dimensions (columns rows dot_size spacing : Int) :
    Int × Int × Int :=
  (columns * (dot_size + spacing) - spacing,
   rows * (dot_size + spacing) - spacing,
   columns * rows)

/-- `create_prime_grid` (`image_generator.py` lines 41-71): walks the
positions `0, …, total_positions - 1` of `range(total_positions)`, keeps
those in the prime set, and records `(x, y, classification)` with
`x = pos % columns` and `y = pos // columns` (non-negative operands, so
Python floor division agrees with `Int` division).  The `rows` argument is
unused, exactly as in the source. -/
def create_prime_grid (total_positions columns rows : Int) :
    List (Int × Int × String) :=
  let primes_set := generate_primes_set total_positions
  ((List.range total_positions.toNat).filter
      (fun pos : Nat => decide ((pos : Int) ∈ primes_set))).map
    (fun pos : Nat => ((pos : Int) % columns, (pos : Int) / columns,
      classify_prime (pos : Int) primes_set))

/-- The statistics dictionary of `generate_statistics`
(`image_generator.py` lines 150-161) as a record; `density` carries the
exact rational value of the float division, `prime_types` the per-label
count map. -/
structure Statistics where
  width : Int
  height : Int
  grid_columns : Int
  grid_rows : Int
  total_positions : Int
  total_primes : Nat
  density : Rat
  prime_types : String → Nat

/-- `generate_statistics` (`image_generator.py` lines 123-163). -/
def generate_statistics (prime_points : List (Int × Int × String))
    (columns rows dot_size spacing : Int) : Statistics :=
  let dims := calculate_dimensions columns rows dot_size spacing
  { width := dims.1
    height := dims.2.1
    grid_columns := columns
    grid_rows := rows
    total_positions := dims.2.2
    total_primes := prime_points.length
    density := ((prime_points.length : Rat) / ((dims.2.2 : Int) : Rat)) * 100
    prime_types := fun t => (prime_points.filter (fun pt => pt.2.2 == t)).length }

/-! ## Claim C4 -/

/-- C4: for every bound ≥ 0, `generate_primes bound` contains a natural
number exactly when it is prime and at most the bound (so 0 and 1 are
excluded, no composite occurs, and no prime ≤ bound is missing); the
result is empty whenever the bound is below 2; and at bound 30 the result
is exactly `[2, 3, 5, 7, 11, 13, 17, 19, 23, 29]`. -/
theorem C4_generate_primes_exact :
    (∀ limit : Int, 0 ≤ limit → ∀ n : Nat,
        (n ∈ generate_primes limit ↔ Nat.Prime n ∧ (n : Int) ≤ limit))
    ∧ (∀ limit : Int, limit < 2 → generate_primes limit = [])
    ∧ generate_primes 30 = [2, 3, 5, 7, 11, 13, 17, 19, 23, 29] := by
  refine ⟨fun limit _ n => mem_generate_primes limit n, fun limit hlt => ?_, ?_⟩
  · simp only [generate_primes, if_pos hlt]
  · rw [generate_primes_eq_filter]
    decide

/-- Witness for C4: the membership characterisation applied at bound 10
and candidate 7, and the empty-result clause applied at bound -3. -/
theorem C4_witness :
    ((0 : Int) ≤ 10 ∧ (7 ∈ generate_primes 10 ↔ Nat.Prime 7 ∧ ((7 : Nat) : Int) ≤ 10))
    ∧ ((-3 : Int) < 2 ∧ generate_primes (-3) = []) :=
  ⟨⟨by decide, C4_generate_primes_exact.1 10 (by decide) 7⟩,
   ⟨by decide, C4_generate_primes_exact.2.1 (-3) (by decide)⟩⟩

/-! ## Claim C5 -/

/-- C5: the trial-division test and the sieve agree: for every `N ≥ 0` and
every `0 ≤ n ≤ N`, `is_prime n` is true iff `n` is a member of
`generate_primes N`. -/
theorem C5_is_prime_agrees_sieve (N : Int) (hN : 0 ≤ N) (n : Nat)
    (hn : (n : Int) ≤ N) :
    (is_prime (n : Int) = true ↔ n ∈ generate_primes N) := by
  rw [is_prime_coe, mem_generate_primes]
  exact ⟨fun h => ⟨h, hn⟩, fun h => h.1⟩

/-- Witness for C5 at `N = 100`, `n = 97`. -/
theorem C5_witness :
    (0 : Int) ≤ 100 ∧ ((97 : Nat) : Int) ≤ 100
      ∧ (is_prime ((97 : Nat) : Int) = true ↔ 97 ∈ generate_primes 100) :=
  ⟨by decide, by decide, C5_is_prime_agrees_sieve 100 (by decide) 97 (by decide)⟩

/-! ## Claim C3 -/

/-- C3 counterexample: the claim says a negative bound fails with an
`InvalidBound` error and does not return a normal result; but at bound
`-5` the code takes the `limit < 2` early return and produces the empty
list normally — `generate_primes` contains no failure path at all. -/
theorem C3_counterexample : generate_primes (-5) = [] := by decide

/-- C3 amended: for every bound < 0, `generate_primes` returns the empty
list normally (the `limit < 2` guard absorbs negative bounds; no
`InvalidBound` error condition exists in the code). -/
theorem C3_amended_negative_bound (limit : Int) (h : limit < 0) :
    generate_primes limit = [] := by
  simp only [generate_primes, if_pos (show limit < 2 by omega)]

/-- Witness for C3 amended at bound -7. -/
theorem C3_amended_witness : (-7 : Int) < 0 ∧ generate_primes (-7) = [] :=
  ⟨by decide, C3_amended_negative_bound (-7) (by decide)⟩

/-! ## Claim C10 -/

/-- C10: twin and isolated are exact complements — for every integer `n`
with `is_prime n` true and `n` in the prime set, `is_isolated_prime`
returns true iff `is_twin_prime` returns false. -/
theorem C10_twin_isolated_complement (n : Int) (s : Finset Int)
    (hp : is_prime n = true) (hmem : n ∈ s) :
    (is_isolated_prime n s = true ↔ is_twin_prime n s = false) := by
  simp only [is_isolated_prime, is_twin_prime, hp, decide_eq_true_eq,
    Bool.true_and, Bool.and_eq_true, decide_eq_true_iff,
    Bool.and_eq_false_iff, Bool.or_eq_false_iff, decide_eq_false_iff_not]
  constructor
  · rintro ⟨h1, h2⟩
    exact Or.inr ⟨h1, h2⟩
  · rintro (h | ⟨h1, h2⟩)
    · exact absurd hmem h
    · exact ⟨h1, h2⟩

/-- Witness for C10 at `n = 23` with the primes up to 30. -/
theorem C10_witness :
    is_prime 23 = true
      ∧ (23 : Int) ∈ ({2, 3, 5, 7, 11, 13, 17, 19, 23, 29} : Finset Int)
      ∧ (is_isolated_prime 23 ({2, 3, 5, 7, 11, 13, 17, 19, 23, 29} : Finset Int) = true
          ↔ is_twin_prime 23 ({2, 3, 5, 7, 11, 13, 17, 19, 23, 29} : Finset Int) = false) := by
  have hp : is_prime 23 = true := (is_prime_iff 23).mpr ⟨by decide, by decide⟩
  exact ⟨hp, by decide, C10_twin_isolated_complement 23 _ hp (by decide)⟩

/-! ## Claim C9 -/

/-- C9: `classify_prime` is total and never fails on non-prime input: for
every integer `n` (negative ones included) with `is_prime n` false, and
every prime set whose members are genuine primes, it returns
`"regular_prime"`; no `InvalidCandidate` check or assertion exists. -/
theorem C9_classify_nonprime_regular (n : Int) (s : Finset Int)
    (hnp : is_prime n = false) (hs : ∀ p ∈ s, 2 ≤ p ∧ Nat.Prime p.toNat) :
    classify_prime n s = "regular_prime" := by
  have hmem : n ∉ s := by
    intro hin
    have := (is_prime_iff n).mpr ⟨(hs n hin).1, (hs n hin).2⟩
    rw [hnp] at this
    cases this
  simp [classify_prime, is_mersenne_prime, is_factorial_prime,
    is_wieferich_prime, is_fibonacci_prime, is_twin_prime, is_sexy_prime,
    is_isolated_prime, is_safe_prime, is_sophie_germain_prime, is_chen_prime,
    is_palindromic_prime, is_circular_prime, is_cuban_prime, is_happy_prime,
    hnp, hmem]

/-- Witness for C9 at `n = -5` with prime set `{2, 3}`. -/
theorem C9_witness :
    is_prime (-5) = false
      ∧ (∀ p ∈ ({2, 3} : Finset Int), 2 ≤ p ∧ Nat.Prime p.toNat)
      ∧ classify_prime (-5) ({2, 3} : Finset Int) = "regular_prime" :=
  ⟨by decide, by decide,
   C9_classify_nonprime_regular (-5) _ (by decide) (by decide)⟩

/-! ## Claim C2 -/

lemma is_prime_seven : is_prime 7 = true :=
  (is_prime_iff 7).mpr ⟨by decide, by decide⟩

lemma is_mersenne_prime_seven : is_mersenne_prime 7 = true := by
  have h8 : (7 : Int).toNat + 1 = 8 := rfl
  have hlog : Nat.log2 8 = 3 := by simp [Nat.log2]
  simp only [is_mersenne_prime, is_prime_seven, h8, hlog]
  norm_num
  exact ⟨by decide, by decide⟩

lemma is_factorial_prime_two : is_factorial_prime 2 = true := by
  have hp2 : is_prime 2 = true := by decide
  have hloop : factorialLoop 2 1 1 = true := by
    rw [factorialLoop, dif_pos (by norm_num : (1 : Nat) < 2 + 1 ∧ (1 : Nat) < 20)]
    norm_num
  have htn : (2 : Int).toNat = 2 := rfl
  simp [is_factorial_prime, hp2, htn, hloop]

/-- C2: `classify_prime` evaluates the fourteen family predicates in the
fixed source order (mersenne, factorial, wieferich, fibonacci, twin, sexy,
isolated, safe, sophie_germain, chen, palindromic, circular, cuban, happy)
and returns the label of the first that holds, with fallback
`"regular_prime"`; in particular 7 classifies as `"mersenne_prime"` (not
`"twin_prime"`) and 2 as `"factorial_prime"` (not `"regular_prime"`)
against the primes up to 30. -/
theorem C2_classifier_priority_order :
    (∀ (n : Int) (s : Finset Int),
        classify_prime n s = firstTrueLabel (classifierTable n s))
    ∧ classify_prime 7 (generate_primes_set 30) = "mersenne_prime"
    ∧ classify_prime 2 (generate_primes_set 30) = "factorial_prime" := by
  refine ⟨fun n s => rfl, ?_, ?_⟩
  · simp [classify_prime, is_mersenne_prime_seven]
  · have hm2 : is_mersenne_prime 2 = false := by decide
    simp [classify_prime, hm2, is_factorial_prime_two]

/-! ## Claim C6 -/

/-- The happy-number loop instrumented with a fuel counter, used only to
express that the real (fuel-free) loop terminates: it mirrors
`happyLoop` step for step and gives up (`none`) when the fuel runs out. -/
def happyLoopFuel : Nat → List Nat → Nat → Option Bool
  | 0, _, _ => none
  | fuel + 1, seen, n =>
    if n ≠ 1 ∧ n ∉ seen then happyLoopFuel fuel (n :: seen) (sumSqDigits n)
    else some (n == 1)

/-- Some finite fuel always suffices: the visited-set loop terminates. -/
lemma happyLoop_fuel_exists :
    ∀ (seen : List Nat) (n : Nat),
      ∃ fuel, happyLoopFuel fuel seen n = some (happyLoop seen n) := by
  refine happyLoop.induct
    (fun seen n => ∃ fuel, happyLoopFuel fuel seen n = some (happyLoop seen n))
    ?_ ?_
  · intro seen n h ih
    obtain ⟨fuel, hf⟩ := ih
    refine ⟨fuel + 1, ?_⟩
    have hstep : happyLoop seen n = happyLoop (n :: seen) (sumSqDigits n) := by
      rw [happyLoop, dif_pos h]
    rw [happyLoopFuel, if_pos h, hf, hstep]
  · intro seen n h
    refine ⟨1, ?_⟩
    have hstep : happyLoop seen n = (n == 1) := by rw [happyLoop, dif_neg h]
    rw [happyLoopFuel, if_neg h, hstep]

lemma sumSq_seven : sumSqDigits 7 = 49 := by simp [sumSqDigits, Nat.digits_def']
lemma sumSq_49 : sumSqDigits 49 = 97 := by simp [sumSqDigits, Nat.digits_def']
lemma sumSq_97 : sumSqDigits 97 = 130 := by simp [sumSqDigits, Nat.digits_def']
lemma sumSq_130 : sumSqDigits 130 = 10 := by simp [sumSqDigits, Nat.digits_def']
lemma sumSq_10 : sumSqDigits 10 = 1 := by simp [sumSqDigits, Nat.digits_def']
lemma sumSq_11 : sumSqDigits 11 = 2 := by simp [sumSqDigits, Nat.digits_def']
lemma sumSq_2 : sumSqDigits 2 = 4 := by simp [sumSqDigits, Nat.digits_def']
lemma sumSq_4 : sumSqDigits 4 = 16 := by simp [sumSqDigits, Nat.digits_def']
lemma sumSq_16 : sumSqDigits 16 = 37 := by simp [sumSqDigits, Nat.digits_def']
lemma sumSq_37 : sumSqDigits 37 = 58 := by simp [sumSqDigits, Nat.digits_def']
lemma sumSq_58 : sumSqDigits 58 = 89 := by simp [sumSqDigits, Nat.digits_def']
lemma sumSq_89 : sumSqDigits 89 = 145 := by simp [sumSqDigits, Nat.digits_def']
lemma sumSq_145 : sumSqDigits 145 = 42 := by simp [sumSqDigits, Nat.digits_def']
lemma sumSq_42 : sumSqDigits 42 = 20 := by simp [sumSqDigits, Nat.digits_def']
lemma sumSq_20 : sumSqDigits 20 = 4 := by simp [sumSqDigits, Nat.digits_def']

/-- C6: the happy-number check terminates on every non-negative input —
the visited-set loop always stops, i.e. for every `n` some finite fuel
makes the instrumented loop return the very value the cycle-detecting
loop computes (no iteration cap is involved in `is_happy_number` itself);
moreover `is_happy_prime 7` is true and `is_happy_prime 11` is false. -/
theorem C6_happy_terminates :
    (∀ n : Nat, ∃ fuel, happyLoopFuel fuel [] n = some (is_happy_number n))
    ∧ is_happy_prime 7 = true ∧ is_happy_prime 11 = false := by
  refine ⟨fun n => happyLoop_fuel_exists [] n, ?_, ?_⟩
  · have hh : happyLoop [] 7 = true := by
      simp [happyLoop, sumSq_seven, sumSq_49, sumSq_97, sumSq_130, sumSq_10]
    have hp7 : is_prime 7 = true := is_prime_seven
    simp only [is_happy_prime, hp7, Bool.true_and, is_happy_number]
    exact hh
  · have hh : happyLoop [] 11 = false := by
      simp [happyLoop, sumSq_11, sumSq_2, sumSq_4, sumSq_16, sumSq_37,
        sumSq_58, sumSq_89, sumSq_145, sumSq_42, sumSq_20]
    have hp11 : is_prime 11 = true := (is_prime_iff 11).mpr ⟨by decide, by decide⟩
    simp only [is_happy_prime, hp11, Bool.true_and, is_happy_number]
    exact hh

/-! ## Claim C7 -/

/-- On a composite `m ≥ 2` the factor-search loop of `is_chen_prime`,
entered at any index between 2 and the least prime factor, stops at the
least prime factor and reports the primality checks of that factor and its
cofactor. -/
lemma chenLoop_composite (m : Nat) (h2 : 2 ≤ m) (hnp : ¬ Nat.Prime m) :
    ∀ i, 2 ≤ i → i ≤ m.minFac →
      chenLoop m i =
        (is_prime ((m.minFac : Nat) : Int) && is_prime ((m / m.minFac : Nat) : Int)) := by
  have hmfsq : m.minFac * m.minFac ≤ m := minFac_sq_le m h2 hnp
  have hmfle : m.minFac ≤ Nat.sqrt m := Nat.le_sqrt.mpr hmfsq
  refine chenLoop.induct m
    (fun i => 2 ≤ i → i ≤ m.minFac →
      chenLoop m i =
        (is_prime ((m.minFac : Nat) : Int) && is_prime ((m / m.minFac : Nat) : Int)))
    ?_ ?_ ?_
  · intro i hle hdvd h2i himf
    have heq : i = m.minFac :=
      le_antisymm himf (Nat.minFac_le_of_dvd h2i (Nat.dvd_of_mod_eq_zero hdvd))
    rw [chenLoop, dif_pos hle, if_pos hdvd, heq]
  · intro i hle hdvd ih h2i himf
    have hne : i ≠ m.minFac := by
      rintro rfl
      exact hdvd (Nat.mod_eq_zero_of_dvd (Nat.minFac_dvd m))
    rw [chenLoop, dif_pos hle, if_neg hdvd]
    exact ih (by omega) (by omega)
  · intro i hgt h2i himf
    exact absurd (le_trans himf hmfle) hgt

/-- For a composite `m ≥ 2`, the cofactor of the least prime factor is
prime exactly when `m` is a semiprime. -/
lemma quotient_prime_iff_semiprime (m : Nat) (h2 : 2 ≤ m)
    (hnp : ¬ Nat.Prime m) :
    Nat.Prime (m / m.minFac) ↔
      ∃ p q, Nat.Prime p ∧ Nat.Prime q ∧ p * q = m := by
  have hmf : Nat.Prime m.minFac := Nat.minFac_prime (by omega)
  constructor
  · intro hq
    exact ⟨m.minFac, m / m.minFac, hmf, hq, Nat.mul_div_cancel' (Nat.minFac_dvd m)⟩
  · rintro ⟨p, q, hp, hq, hpq⟩
    have hdvd : m.minFac ∣ p * q := hpq ▸ Nat.minFac_dvd m
    rcases (Nat.Prime.dvd_mul hmf).mp hdvd with h | h
    · have heq : m.minFac = p := (Nat.prime_dvd_prime_iff_eq hmf hp).mp h
      have hdq : m / m.minFac = q := by
        rw [heq, ← hpq, Nat.mul_div_cancel_left q hp.pos]
      rw [hdq]
      exact hq
    · have heq : m.minFac = q := (Nat.prime_dvd_prime_iff_eq hmf hq).mp h
      have hdp : m / m.minFac = p := by
        rw [heq, ← hpq, Nat.mul_div_cancel p hq.pos]
      rw [hdp]
      exact hp

/-- C7: for every prime `n`, `is_chen_prime n` is true iff `n + 2` is
prime or `n + 2` is a semiprime (a product of exactly two, possibly equal,
primes). -/
theorem C7_chen_characterisation (n : Nat) (hp : Nat.Prime n) :
    (is_chen_prime (n : Int) = true ↔
      Nat.Prime (n + 2) ∨ ∃ p q, Nat.Prime p ∧ Nat.Prime q ∧ p * q = n + 2) := by
  have h2 : 2 ≤ n := hp.two_le
  have hip : is_prime (n : Int) = true := (is_prime_coe n).mpr hp
  have hcast : ((n : Int) + 2) = ((n + 2 : Nat) : Int) := by push_cast; ring
  by_cases hm : Nat.Prime (n + 2)
  · have hip2 : is_prime ((n : Int) + 2) = true := by
      rw [hcast]
      exact (is_prime_coe (n + 2)).mpr hm
    simp [is_chen_prime, hip, hip2, hm]
  · have hip2 : is_prime ((n : Int) + 2) = false := by
      rw [hcast]
      cases hb : is_prime ((n + 2 : Nat) : Int)
      · rfl
      · exact absurd ((is_prime_coe (n + 2)).mp hb) hm
    have htn : ((n : Int) + 2).toNat = n + 2 := by omega
    have hge : ¬ ((n : Int) + 2 < 4) := by omega
    have hmfp : Nat.Prime (n + 2).minFac := Nat.minFac_prime (by omega)
    have h2mf : 2 ≤ (n + 2).minFac := hmfp.two_le
    have hunfold : is_chen_prime (n : Int) = chenLoop (n + 2) 2 := by
      simp [is_chen_prime, hip, hip2, hge, htn]
    rw [hunfold, chenLoop_composite (n + 2) (by omega) hm 2 (by omega) h2mf,
      Bool.and_eq_true, is_prime_coe, is_prime_coe,
      quotient_prime_iff_semiprime (n + 2) (by omega) hm]
    constructor
    · rintro ⟨-, hsemi⟩
      exact Or.inr hsemi
    · rintro (h | hsemi)
      · exact absurd h hm
      · exact ⟨hmfp, hsemi⟩

/-- Witness for C7 at `n = 2` (`2 + 2 = 4 = 2 · 2` is a semiprime). -/
theorem C7_witness :
    Nat.Prime 2
      ∧ (is_chen_prime ((2 : Nat) : Int) = true ↔
          Nat.Prime (2 + 2) ∨ ∃ p q, Nat.Prime p ∧ Nat.Prime q ∧ p * q = 2 + 2) :=
  ⟨by decide, C7_chen_characterisation 2 (by decide)⟩

/-! ## Claim C8 -/

/-- C8: for every prime `n`, `is_cuban_prime n` is true iff
`n = 3m² + 3m + 1` for some non-negative integer `m`. -/
theorem C8_cuban_characterisation (n : Nat) (hp : Nat.Prime n) :
    (is_cuban_prime (n : Int) = true ↔ ∃ m : Nat, n = 3 * m ^ 2 + 3 * m + 1) := by
  have h2 : 2 ≤ n := hp.two_le
  have hip : is_prime (n : Int) = true := (is_prime_coe n).mpr hp
  have hD : ((9 : Int) + 12 * ((n : Int) - 1)).toNat = 12 * n - 3 := by omega
  by_cases hsq : Nat.sqrt (12 * n - 3) * Nat.sqrt (12 * n - 3) = 12 * n - 3
  · have hunfold : is_cuban_prime (n : Int) =
        (decide ((-3 + (Nat.sqrt (12 * n - 3) : Int)) % 6 = 0)
          && decide (0 ≤ (-3 + (Nat.sqrt (12 * n - 3) : Int)) / 6)) := by
      simp [is_cuban_prime, hip, hD, hsq]
    rw [hunfold, Bool.and_eq_true, decide_eq_true_eq, decide_eq_true_eq]
    have hs3 : 3 ≤ Nat.sqrt (12 * n - 3) := by
      rcases Nat.lt_or_ge (Nat.sqrt (12 * n - 3)) 3 with hlt | hge
      · exfalso
        have : Nat.sqrt (12 * n - 3) * Nat.sqrt (12 * n - 3) ≤ 2 * 2 :=
          Nat.mul_le_mul (by omega) (by omega)
        omega
      · exact hge
    constructor
    · rintro ⟨hmod, -⟩
      have hs6 : Nat.sqrt (12 * n - 3) % 6 = 3 := by omega
      obtain ⟨q, hq⟩ : ∃ q, Nat.sqrt (12 * n - 3) = 6 * q + 3 :=
        ⟨Nat.sqrt (12 * n - 3) / 6, by omega⟩
      rw [hq] at hsq
      have hexp : (6 * q + 3) * (6 * q + 3) = 36 * q ^ 2 + 36 * q + 9 := by ring
      rw [hexp] at hsq
      exact ⟨q, by omega⟩
    · rintro ⟨m, hmval⟩
      have hexp : (6 * m + 3) * (6 * m + 3) = 36 * m ^ 2 + 36 * m + 9 := by ring
      have hDm : 12 * n - 3 = (6 * m + 3) * (6 * m + 3) := by omega
      have hsm : Nat.sqrt (12 * n - 3) = 6 * m + 3 := by
        rw [hDm, Nat.sqrt_eq]
      rw [hsm]
      constructor
      · push_cast
        omega
      · push_cast
        omega
  · have hunfold : is_cuban_prime (n : Int) = false := by
      simp [is_cuban_prime, hip, hD, hsq]
    rw [hunfold]
    simp only [Bool.false_eq_true, false_iff]
    rintro ⟨m, hmval⟩
    apply hsq
    have hexp : (6 * m + 3) * (6 * m + 3) = 36 * m ^ 2 + 36 * m + 9 := by ring
    have hDm : 12 * n - 3 = (6 * m + 3) * (6 * m + 3) := by omega
    rw [hDm, Nat.sqrt_eq]

/-- Witness for C8 at `n = 7 = 3 · 1 + 3 · 1 + 1` (so `m = 1`). -/
theorem C8_witness :
    Nat.Prime 7
      ∧ (is_cuban_prime ((7 : Nat) : Int) = true ↔
          ∃ m : Nat, 7 = 3 * m ^ 2 + 3 * m + 1) :=
  ⟨by decide, C8_cuban_characterisation 7 (by decide)⟩

/-! ## Claim C1 -/

/-- The grid pass filters the positions `0, …, bound - 1` by primality:
unfolding the prime-set membership test against the sieve
characterisation. -/
lemma create_prime_grid_eq (bound columns rows : Int) (hb : 0 ≤ bound) :
    create_prime_grid bound columns rows =
      ((List.range bound.toNat).filter (fun pos => decide (Nat.Prime pos))).map
        (fun pos : Nat => ((pos : Int) % columns, (pos : Int) / columns,
          classify_prime (pos : Int) (generate_primes_set bound))) := by
  simp only [create_prime_grid]
  congr 1
  apply List.filter_congr
  intro x hx
  rw [List.mem_range] at hx
  have hiff : ((x : Int) ∈ generate_primes_set bound) ↔ Nat.Prime x := by
    rw [mem_generate_primes_set]
    constructor
    · rintro ⟨-, hp, -⟩
      simpa using hp
    · intro hp
      exact ⟨Int.ofNat_nonneg x, by simpa using hp, by omega⟩
  exact decide_eq_decide.mpr hiff

/-- Recovering `position = y * columns + x` from each grid entry gives
back exactly the ascending list of primes strictly below the bound. -/
lemma create_prime_grid_positions (bound columns rows : Int) (hb : 0 ≤ bound)
    (hc : 0 < columns) :
    (create_prime_grid bound columns rows).map (fun t => t.2.1 * columns + t.1) =
      ((List.range bound.toNat).filter (fun pos => decide (Nat.Prime pos))).map
        (fun pos : Nat => (pos : Int)) := by
  rw [create_prime_grid_eq bound columns rows hb, List.map_map]
  apply List.map_congr_left
  intro x hx
  simp only [Function.comp]
  rw [mul_comm]
  exact Int.ediv_add_emod (x : Int) columns

/-- The grid entries are pairwise distinct. -/
lemma create_prime_grid_nodup (bound columns rows : Int) (hb : 0 ≤ bound)
    (hc : 0 < columns) :
    (create_prime_grid bound columns rows).Nodup := by
  apply List.Nodup.of_map (fun t : Int × Int × String => t.2.1 * columns + t.1)
  rw [create_prime_grid_positions bound columns rows hb hc]
  apply List.Nodup.map
  · exact fun a b hab => Nat.cast_injective hab
  · exact (List.nodup_range _).filter _

/-- C1 counterexample: the claim promises one grid entry per prime
`≤ bound` and `total_primes` equal to the sieve's cardinality, but at
`bound = 2` (columns = 1) the position loop `range(total_positions)`
stops before the prime 2: the point list is empty, `total_primes` is 0,
while `PrimeSet(2) = {2}` has cardinality 1. -/
theorem C1_counterexample :
    Nat.Prime 2 ∧ (2 : Int) ≤ 2 ∧ create_prime_grid 2 1 1 = []
      ∧ (generate_statistics (create_prime_grid 2 1 1) 1 1 1 0).total_primes = 0
      ∧ (generate_primes_set 2).card = 1 := by
  have hgrid : create_prime_grid 2 1 1 = [] := by
    rw [create_prime_grid_eq 2 1 1 (by decide)]
    decide
  have hset : generate_primes_set 2 = {(2 : Int)} := by
    have h1 : generate_primes 2 = [2] := by
      rw [generate_primes_eq_filter]
      decide
    rw [generate_primes_set, h1]
    decide
  refine ⟨by decide, by decide, hgrid, ?_, ?_⟩
  · rw [show (generate_statistics (create_prime_grid 2 1 1) 1 1 1 0).total_primes
        = (create_prime_grid 2 1 1).length from rfl, hgrid]
    rfl
  · rw [hset]
    rfl

/-- C1 amended: for every bound ≥ 0 and columns > 0, the grid pass
produces exactly one entry per prime strictly below the bound (the
position loop covers `[0, bound)`, so a prime equal to the bound itself is
excluded), with no duplicates, each entry storing
`(pos % columns, pos / columns)`; `total_primes` equals both the
point-list length and the number of primes `< bound`; in particular
`bound = 30`, `columns = 6` yields exactly 10 points and
`total_primes = 10`. -/
theorem C1_amended_grid_counts :
    (∀ bound columns rows dot_size spacing : Int, 0 ≤ bound → 0 < columns →
      ((create_prime_grid bound columns rows).map (fun t => t.2.1 * columns + t.1)
          = ((List.range bound.toNat).filter (fun pos => decide (Nat.Prime pos))).map
              (fun pos : Nat => (pos : Int)))
      ∧ (create_prime_grid bound columns rows).Nodup
      ∧ (generate_statistics (create_prime_grid bound columns rows)
            columns rows dot_size spacing).total_primes
          = (create_prime_grid bound columns rows).length
      ∧ (create_prime_grid bound columns rows).length
          = ((List.range bound.toNat).filter (fun pos => decide (Nat.Prime pos))).length)
    ∧ (create_prime_grid 30 6 5).length = 10
    ∧ (generate_statistics (create_prime_grid 30 6 5) 6 5 10 2).total_primes = 10 := by
  have hlen : ∀ bound columns rows : Int, 0 ≤ bound → 0 < columns →
      (create_prime_grid bound columns rows).length
        = ((List.range bound.toNat).filter (fun pos => decide (Nat.Prime pos))).length := by
    intro bound columns rows hb hc
    have := congrArg List.length (create_prime_grid_positions bound columns rows hb hc)
    simpa using this
  have h30 : (create_prime_grid 30 6 5).length = 10 := by
    rw [hlen 30 6 5 (by decide) (by decide)]
    decide
  refine ⟨fun bound columns rows dot_size spacing hb hc =>
    ⟨create_prime_grid_positions bound columns rows hb hc,
     create_prime_grid_nodup bound columns rows hb hc,
     rfl,
     hlen bound columns rows hb hc⟩,
    h30, ?_⟩
  rw [show (generate_statistics (create_prime_grid 30 6 5) 6 5 10 2).total_primes
      = (create_prime_grid 30 6 5).length from rfl]
  exact h30

/-- Witness for C1 amended at bound 30, columns 6. -/
theorem C1_amended_witness :
    (0 : Int) ≤ 30 ∧ (0 : Int) < 6
      ∧ ((create_prime_grid 30 6 5).map (fun t => t.2.1 * 6 + t.1)
          = ((List.range (30 : Int).toNat).filter (fun pos => decide (Nat.Prime pos))).map
              (fun pos : Nat => (pos : Int)))
      ∧ (create_prime_grid 30 6 5).Nodup
      ∧ (generate_statistics (create_prime_grid 30 6 5) 6 5 10 2).total_primes
          = (create_prime_grid 30 6 5).length :=
  ⟨by decide, by decide,
   (C1_amended_grid_counts.1 30 6 5 10 2 (by decide) (by decide)).1,
   (C1_amended_grid_counts.1 30 6 5 10 2 (by decide) (by decide)).2.1,
   (C1_amended_grid_counts.1 30 6 5 10 2 (by decide) (by decide)).2.2.1⟩

end PrimeVis
